import Mathlib

/-!
Verification of the extraction-and-graph-assembly core of the
AI Knowledge Graph Generator (`app.py`).

The embedding models:
* `create_graph` (graph assembly on a NetworkX-style undirected graph with
  attribute dictionaries, last-write-wins on duplicate nodes/edges);
* `extract_entities_relationships` (strip, greedy first-brace-to-last-brace
  extraction as performed by the regex search, JSON parsing, and the
  error fallbacks);
* the statistics displayed by `main` (density as computed by
  `networkx.density`, average degree as the sum of degrees over the
  node count).

Python dictionaries with string keys and string values are modelled as
association lists (`AttrDict`); a missing dictionary key is modelled by
`Option`.  Machine floats in the statistics are modelled exactly in `ℚ`.
-/

/-- Attribute dictionary of a node or edge: insertion-ordered string map. -/
abbrev AttrDict := List (String × String)

/-- Insert key `k` with value `v`: replace the first binding of `k` in place,
or append a new binding (Python `d[k] = v`). -/
def dictInsert : AttrDict → String → String → AttrDict
  | [], k, v => [(k, v)]
  | p :: rest, k, v =>
    if p.1 = k then (k, v) :: rest else p :: dictInsert rest k v

/-- Python `d.update(new)`: insert every binding of `new` in order. -/
def dictUpdate (d new : AttrDict) : AttrDict :=
  new.foldl (fun acc p => dictInsert acc p.1 p.2) d

/-- An undirected NetworkX-style graph: insertion-ordered node list with
attribute dictionaries, and an edge list keyed by unordered endpoint pair. -/
structure Graph where
  nodes : List (String × AttrDict)
  edges : List (String × String × AttrDict)
deriving DecidableEq, Repr

/-- The empty graph `nx.Graph()`. -/
def Graph.empty : Graph := ⟨[], []⟩

/-- `G.has_node n`. -/
def hasNode (G : Graph) (n : String) : Bool :=
  G.nodes.any (fun p => p.1 = n)

/-- Replace the attributes of the first node keyed `n` (updating its
dictionary), or append a new node (NetworkX `add_node`). -/
def addNodeList : List (String × AttrDict) → String → AttrDict → List (String × AttrDict)
  | [], n, a => [(n, a)]
  | p :: rest, n, a =>
    if p.1 = n then (p.1, dictUpdate p.2 a) :: rest else p :: addNodeList rest n a

/-- `G.add_node n **a`. -/
def add_node (G : Graph) (n : String) (a : AttrDict) : Graph :=
  { G with nodes := addNodeList G.nodes n a }

/-- Update the attributes of the first edge whose unordered endpoint pair is
`{u, v}`; `none` when no such edge exists. -/
def updateEdgeList : List (String × String × AttrDict) → String → String → AttrDict →
    Option (List (String × String × AttrDict))
  | [], _, _, _ => none
  | t :: rest, u, v, a =>
    if (t.1 = u ∧ t.2.1 = v) ∨ (t.1 = v ∧ t.2.1 = u) then
      some ((t.1, t.2.1, dictUpdate t.2.2 a) :: rest)
    else
      (updateEdgeList rest u v a).map (fun es => t :: es)

/-- Add node `n` with an empty attribute dictionary unless it is present. -/
def ensureNode (ns : List (String × AttrDict)) (n : String) : List (String × AttrDict) :=
  if ns.any (fun p => p.1 = n) then ns else addNodeList ns n []

/-- `G.add_edge u v **a`: missing endpoints are added as attribute-free nodes,
an existing edge between the unordered pair has its attributes updated, and
otherwise a fresh edge is appended. -/
def add_edge (G : Graph) (u v : String) (a : AttrDict) : Graph :=
  { nodes := ensureNode (ensureNode G.nodes u) v
    edges :=
      match updateEdgeList G.edges u v a with
      | some es => es
      | none => G.edges ++ [(u, v, a)] }

/-- An entity record of the extracted data; `none` models an absent key. -/
structure EntityR where
  name : Option String
  type : Option String
  description : Option String
deriving DecidableEq, Repr

/-- A relationship record of the extracted data; `none` models an absent key. -/
structure RelR where
  source : Option String
  target : Option String
  relationship : Option String
  description : Option String
deriving DecidableEq, Repr

/-- The record consumed by `create_graph`. -/
structure ExtractedData where
  entities : List EntityR
  relationships : List RelR
deriving DecidableEq, Repr

/-- The node attributes stored for an entity record:
`type=entity.get("type", "unknown")`, `description=entity.get("description", "")`. -/
def entityAttrs (e : EntityR) : AttrDict :=
  [("type", e.type.getD "unknown"), ("description", e.description.getD "")]

/-- The edge attributes stored for a relationship record:
`relationship=rel.get("relationship", "related_to")`,
`description=rel.get("description", "")`. -/
def relAttrs (r : RelR) : AttrDict :=
  [("relationship", r.relationship.getD "related_to"), ("description", r.description.getD "")]

/-- The entity loop of `create_graph`: `G.add_node(entity["name"], ...)`.
The subscript `entity["name"]` raises `KeyError` when the key is absent,
modelled by `Except.error`. -/
def addEntities : Graph → List EntityR → Except String Graph
  | G, [] => .ok G
  | G, e :: rest =>
    match e.name with
    | none => .error "KeyError: name"
    | some n => addEntities (add_node G n (entityAttrs e)) rest

/-- The relationship loop of `create_graph`: resolve `source`/`target` with
empty-string defaults and add the edge only when both are non-empty (Python
truthiness) and both are existing nodes. -/
def addRels : Graph → List RelR → Graph
  | G, [] => G
  | G, r :: rest =>
    let s := r.source.getD ""
    let t := r.target.getD ""
    let G' :=
      if s ≠ "" ∧ t ≠ "" ∧ hasNode G s ∧ hasNode G t then
        add_edge G s t (relAttrs r)
      else G
    addRels G' rest

/-- `KnowledgeGraphGenerator.create_graph`. -/
def create_graph (d : ExtractedData) : Except String Graph :=
  match addEntities Graph.empty d.entities with
  | .error e => .error e
  | .ok G => .ok (addRels G d.relationships)

/-- The names of the nodes of `G`, in insertion order. -/
def nodeNames (G : Graph) : List String := G.nodes.map (fun p => p.1)

/-- The attribute dictionary of the first node keyed `n`. -/
def findNode : List (String × AttrDict) → String → Option AttrDict
  | [], _ => none
  | p :: rest, n => if p.1 = n then some p.2 else findNode rest n

/-- The unordered pairs `{u, v}` and `{a, b}` coincide (as endpoint pairs). -/
def pairMatch (u v a b : String) : Prop :=
  (u = a ∧ v = b) ∨ (u = b ∧ v = a)

instance (u v a b : String) : Decidable (pairMatch u v a b) := by
  unfold pairMatch; infer_instance

/-- The edges of `G` whose unordered endpoint pair is `{a, b}`. -/
def edgesBetween (G : Graph) (a b : String) : List (String × String × AttrDict) :=
  G.edges.filter (fun t => decide (pairMatch t.1 t.2.1 a b))

/-- The last entity record of `es` whose `name` is `n`. -/
def lastNamed : List EntityR → String → Option EntityR
  | [], _ => none
  | e :: rest, n =>
    match lastNamed rest n with
    | some e' => some e'
    | none => if e.name = some n then some e else none

/-- Whether relationship `r` links the unordered pair `{a, b}` (its resolved
source/target are `a, b` in either order). -/
def linksPair (r : RelR) (a b : String) : Prop :=
  pairMatch (r.source.getD "") (r.target.getD "") a b

instance (r : RelR) (a b : String) : Decidable (linksPair r a b) := by
  unfold linksPair; infer_instance

/-- The last relationship record of `rs` linking the unordered pair `{a, b}`. -/
def lastLink : List RelR → String → String → Option RelR
  | [], _, _ => none
  | r :: rest, a, b =>
    match lastLink rest a b with
    | some r' => some r'
    | none => if linksPair r a b then some r else none

/-- The `name` values occurring in the entity records. -/
def entityNames (d : ExtractedData) : List String :=
  d.entities.filterMap (fun e => e.name)

/-- A parsed JSON value (Python `json.loads` result).  Numbers are kept as
their source lexemes, which is enough for every property considered here. -/
inductive Json where
  | null
  | bool (b : Bool)
  | num (lexeme : String)
  | str (s : String)
  | arr (xs : List Json)
  | obj (kvs : List (String × Json))
deriving Repr

/-- JSON whitespace (` `, tab, newline, carriage return). -/
def isJsonWs (c : Char) : Bool :=
  c = ' ' || c = '\t' || c = '\n' || c = '\r'

/-- Drop leading JSON whitespace. -/
def skipWs : List Char → List Char
  | c :: cs => if isJsonWs c then skipWs cs else c :: cs
  | [] => []

/-- The value of a hexadecimal digit. -/
def hexVal (c : Char) : Option Nat :=
  if '0' ≤ c ∧ c ≤ '9' then some (c.toNat - '0'.toNat)
  else if 'a' ≤ c ∧ c ≤ 'f' then some (c.toNat - 'a'.toNat + 10)
  else if 'A' ≤ c ∧ c ≤ 'F' then some (c.toNat - 'A'.toNat + 10)
  else none

/-- Longest prefix of decimal digits, and the rest. -/
def takeDigits : List Char → List Char × List Char
  | c :: cs =>
    if c.isDigit then
      let p := takeDigits cs
      (c :: p.1, p.2)
    else ([], c :: cs)
  | [] => ([], [])

/-- The integer part of the JSON number grammar: `0` or a nonzero digit
followed by digits; `none` when the input starts with neither. -/
def numIntPart : List Char → Option (List Char × List Char)
  | '0' :: cs => some (['0'], cs)
  | c :: cs =>
    if c.isDigit then
      let p := takeDigits cs
      some (c :: p.1, p.2)
    else none
  | [] => none

/-- The optional fraction part `.digits` (consumed only when at least one
digit follows the dot, as in the `json` module's number regex). -/
def numFracPart : List Char → List Char × List Char
  | '.' :: c :: cs =>
    if c.isDigit then
      let p := takeDigits cs
      ('.' :: c :: p.1, p.2)
    else ([], '.' :: c :: cs)
  | cs => ([], cs)

/-- The optional exponent part `[eE][+-]?digits` (consumed only when it is
fully well-formed, as in the `json` module's number regex). -/
def numExpPart : List Char → List Char × List Char
  | e :: c :: cs =>
    if e = 'e' ∨ e = 'E' then
      if c.isDigit then
        let p := takeDigits cs
        (e :: c :: p.1, p.2)
      else if (c = '+' ∨ c = '-') then
        match cs with
        | d :: cs2 =>
          if d.isDigit then
            let p := takeDigits cs2
            (e :: c :: d :: p.1, p.2)
          else ([], e :: c :: cs)
        | [] => ([], e :: c :: cs)
      else ([], e :: c :: cs)
    else ([], e :: c :: cs)
  | cs => ([], cs)

/-- Match the JSON number grammar `-?(0|[1-9]\d*)(\.\d+)?([eE][+-]?\d+)?`
at the head of the input, returning the matched lexeme and the rest. -/
def matchNumber (cs : List Char) : Option (List Char × List Char) :=
  match cs with
  | '-' :: rest =>
    match numIntPart rest with
    | some (ip, r1) =>
      let f := numFracPart r1
      let e := numExpPart f.2
      some ('-' :: ip ++ f.1 ++ e.1, e.2)
    | none => none
  | _ =>
    match numIntPart cs with
    | some (ip, r1) =>
      let f := numFracPart r1
      let e := numExpPart f.2
      some (ip ++ f.1 ++ e.1, e.2)
    | none => none

/-- Insert a member into an object: a duplicate key keeps its position and
takes the new value (Python `dict` assignment). -/
def objInsert : List (String × Json) → String → Json → List (String × Json)
  | [], k, v => [(k, v)]
  | p :: rest, k, v =>
    if p.1 = k then (k, v) :: rest else p :: objInsert rest k v

/-- Parse the body of a JSON string after the opening quote, with Python
`json`'s strict escapes and control-character rejection. -/
def parseStrBody : Nat → List Char → List Char → Except String (String × List Char)
  | 0, _, _ => .error "fuel exhausted"
  | _ + 1, [], _ => .error "Unterminated string"
  | _ + 1, '"' :: rest, acc => .ok (String.mk acc.reverse, rest)
  | fuel + 1, '\\' :: rest, acc =>
    match rest with
    | [] => .error "Unterminated string"
    | 'u' :: a :: b :: c :: d :: rest2 =>
      match hexVal a, hexVal b, hexVal c, hexVal d with
      | some va, some vb, some vc, some vd =>
        parseStrBody fuel rest2 (Char.ofNat (((va * 16 + vb) * 16 + vc) * 16 + vd) :: acc)
      | _, _, _, _ => .error "Invalid \\uXXXX escape"
    | 'u' :: _ => .error "Invalid \\uXXXX escape"
    | e :: rest2 =>
      let esc : Option Char :=
        if e = '"' then some '"'
        else if e = '\\' then some '\\'
        else if e = '/' then some '/'
        else if e = 'b' then some (Char.ofNat 8)
        else if e = 'f' then some (Char.ofNat 12)
        else if e = 'n' then some '\n'
        else if e = 'r' then some '\r'
        else if e = 't' then some '\t'
        else none
      match esc with
      | some c => parseStrBody fuel rest2 (c :: acc)
      | none => .error "Invalid \\escape"
  | fuel + 1, c :: rest, acc =>
    if c.toNat < 0x20 then .error "Invalid control character"
    else parseStrBody fuel rest (c :: acc)

mutual

/-- Parse one JSON value at the head of the input (`json` scanner order:
string, object, array, `null`, `true`, `false`, number, constants). -/
def parseValue : Nat → List Char → Except String (Json × List Char)
  | 0, _ => .error "fuel exhausted"
  | fuel + 1, cs0 =>
    match skipWs cs0 with
    | [] => .error "Expecting value"
    | '"' :: rest => (parseStrBody fuel rest []).map (fun p => (.str p.1, p.2))
    | '\x7b' :: rest => parseObjStart fuel rest
    | '[' :: rest => parseArrStart fuel rest
    | cs =>
      if "null".data.isPrefixOf cs then .ok (.null, cs.drop 4)
      else if "true".data.isPrefixOf cs then .ok (.bool true, cs.drop 4)
      else if "false".data.isPrefixOf cs then .ok (.bool false, cs.drop 5)
      else
        match matchNumber cs with
        | some (lex, rest) => .ok (.num (String.mk lex), rest)
        | none =>
          if "NaN".data.isPrefixOf cs then .ok (.num "NaN", cs.drop 3)
          else if "Infinity".data.isPrefixOf cs then .ok (.num "Infinity", cs.drop 8)
          else if "-Infinity".data.isPrefixOf cs then .ok (.num "-Infinity", cs.drop 9)
          else .error "Expecting value"

/-- Parse an array after its opening bracket. -/
def parseArrStart : Nat → List Char → Except String (Json × List Char)
  | 0, _ => .error "fuel exhausted"
  | fuel + 1, cs0 =>
    match skipWs cs0 with
    | ']' :: rest => .ok (.arr [], rest)
    | cs => parseArrLoop fuel cs []

/-- Parse the elements of a non-empty array. -/
def parseArrLoop : Nat → List Char → List Json → Except String (Json × List Char)
  | 0, _, _ => .error "fuel exhausted"
  | fuel + 1, cs, acc =>
    match parseValue fuel cs with
    | .error e => .error e
    | .ok (j, rest) =>
      match skipWs rest with
      | ']' :: rest2 => .ok (.arr (acc ++ [j]), rest2)
      | ',' :: rest2 => parseArrLoop fuel rest2 (acc ++ [j])
      | _ => .error "Expecting delimiter"

/-- Parse an object after its opening brace. -/
def parseObjStart : Nat → List Char → Except String (Json × List Char)
  | 0, _ => .error "fuel exhausted"
  | fuel + 1, cs0 =>
    match skipWs cs0 with
    | '\x7d' :: rest => .ok (.obj [], rest)
    | cs => parseObjLoop fuel cs []

/-- Parse the members of a non-empty object. -/
def parseObjLoop : Nat → List Char → List (String × Json) → Except String (Json × List Char)
  | 0, _, _ => .error "fuel exhausted"
  | fuel + 1, cs0, acc =>
    match skipWs cs0 with
    | '"' :: rest =>
      match parseStrBody fuel rest [] with
      | .error e => .error e
      | .ok (key, rest1) =>
        match skipWs rest1 with
        | ':' :: rest2 =>
          match parseValue fuel rest2 with
          | .error e => .error e
          | .ok (v, rest3) =>
            match skipWs rest3 with
            | '\x7d' :: rest4 => .ok (.obj (objInsert acc key v), rest4)
            | ',' :: rest4 => parseObjLoop fuel rest4 (objInsert acc key v)
            | _ => .error "Expecting delimiter"
        | _ => .error "Expecting colon delimiter"
    | _ => .error "Expecting property name enclosed in double quotes"

end

/-- `json.loads`: parse one value and require only whitespace after it. -/
def json_loads (s : String) : Except String Json :=
  let cs := skipWs s.data
  match parseValue (4 * cs.length + 8) cs with
  | .error e => .error e
  | .ok (j, rest) => if (skipWs rest).isEmpty then .ok j else .error "Extra data"

/-- Python `str.strip()` whitespace. -/
def isPyWs (c : Char) : Bool :=
  c = ' ' || c = '\t' || c = '\n' || c = '\r' || c = '\x0b' || c = '\x0c'

/-- Python `str.strip()`: drop leading and trailing whitespace. -/
def pyStrip (s : String) : String :=
  String.mk (((s.data.dropWhile isPyWs).reverse.dropWhile isPyWs).reverse)

/-- Split at the first occurrence of `c`: `some (pre, post)` with the input
equal to `pre ++ c :: post` and `c` not in `pre`. -/
def splitFirst : List Char → Char → Option (List Char × List Char)
  | [], _ => none
  | x :: rest, c =>
    if x = c then some ([], rest)
    else (splitFirst rest c).map (fun p => (x :: p.1, p.2))

/-- Split at the last occurrence of `c`: `some (pre, post)` with the input
equal to `pre ++ c :: post` and `c` not in `post`. -/
def splitLast (cs : List Char) (c : Char) : Option (List Char × List Char) :=
  (splitFirst cs.reverse c).map (fun p => (p.2.reverse, p.1.reverse))

/-- The text from an opening brace through the last closing brace after it,
or `none` when no closing brace follows. -/
def braceSub (rest : List Char) : Option String :=
  match splitLast rest '\x7d' with
  | none => none
  | some (mid, _) => some (String.mk ('\x7b' :: (mid ++ ['\x7d'])))

/-- The semantics of `re.search(r'\x7b.*\x7d', s, re.DOTALL)` followed by
`.group()`: the substring from the first opening brace to the last closing
brace (greedy, `.` spanning newlines), or `none` when no such substring
exists.  The last closing brace of the whole string coincides with the last
closing brace after the first opening brace whenever the match succeeds. -/
def jsonMatch (s : String) : Option String :=
  match splitFirst s.data '\x7b' with
  | none => none
  | some (_, rest) => braceSub rest

/-- The parsing pipeline of `extract_entities_relationships` applied to the
raw response text: strip, extract the greedy brace substring if present and
parse it, otherwise parse the whole stripped text. -/
def parseAttempt (raw : String) : Except String Json :=
  let t := pyStrip raw
  match jsonMatch t with
  | some sub => json_loads sub
  | none => json_loads t

/-- The kind of user-visible message reported via `st.error`. -/
inductive ErrKind where
  | parseErr (msg : String)
  | apiErr (msg : String)
deriving DecidableEq, Repr

/-- The fallback value `{"entities": [], "relationships": []}`. -/
def emptyStruct : Json :=
  .obj [("entities", .arr []), ("relationships", .arr [])]

/-- `KnowledgeGraphGenerator.extract_entities_relationships`.  The argument
is the outcome of the generation call (`Except.error` when the call or the
access to `response.text` raises); the result pairs the returned value with
the reported message, if any. -/
def extract_entities_relationships (resp : Except String String) : Json × Option ErrKind :=
  match resp with
  | .error e => (emptyStruct, some (.apiErr e))
  | .ok raw =>
    match parseAttempt raw with
    | .ok j => (j, none)
    | .error e => (emptyStruct, some (.parseErr e))

/-- NetworkX degree of node `n`: one per incident edge endpoint, so a
self-loop counts twice. -/
def degree (G : Graph) (n : String) : Nat :=
  (G.edges.map (fun t => (if t.1 = n then 1 else 0) + (if t.2.1 = n then 1 else 0))).sum

/-- `sum(dict(G.degree()).values())` as computed in `main`. -/
def degreeSum (G : Graph) : Nat :=
  ((nodeNames G).map (degree G)).sum

/-- `nx.density(G)` for an undirected graph, exactly in `ℚ`. -/
def nx_density (G : Graph) : ℚ :=
  let n := (nodeNames G).length
  let m := G.edges.length
  if m = 0 ∨ n ≤ 1 then 0 else 2 * (m : ℚ) / ((n : ℚ) * ((n : ℚ) - 1))

/-- The average degree displayed by `main`:
`sum(dict(G.degree()).values()) / len(G.nodes())`, exactly in `ℚ`. -/
def avg_degree (G : Graph) : ℚ :=
  (degreeSum G : ℚ) / (((nodeNames G).length : ℚ))

/-- Field lookup on a JSON value: `some` only for an object containing the
key (first occurrence). -/
def objGet : List (String × Json) → String → Option Json
  | [], _ => none
  | p :: rest, k => if p.1 = k then some p.2 else objGet rest k

/-- The field `k` of a JSON value, when it is an object having that field. -/
def jsonField : Json → String → Option Json
  | .obj kvs, k => objGet kvs k
  | _, _ => none

/-- The attribute dictionary that `add_node` stores over a previous one. -/
def updatedWith (old : Option AttrDict) (a : AttrDict) : AttrDict :=
  match old with
  | none => a
  | some d => dictUpdate d a

/-- Shape of the attribute dictionaries built by the entity loop. -/
def pairShape (k1 k2 : String) (dct : AttrDict) : Prop :=
  ∃ x y, dct = [(k1, x), (k2, y)]

/-- The endpoint pair of an edge record. -/
def edgeEnds (t : String × String × AttrDict) : String × String := (t.1, t.2.1)

/-! ### Lemmas about nodes and the entity loop -/

theorem hasNode_iff (G : Graph) (n : String) :
    hasNode G n = true ↔ n ∈ nodeNames G := by
  simp [hasNode, nodeNames, List.any_eq_true, List.mem_map]

theorem add_node_edges (G : Graph) (n : String) (a : AttrDict) :
    (add_node G n a).edges = G.edges := rfl

theorem mem_keys_addNodeList (ns : List (String × AttrDict)) (n : String) (a : AttrDict)
    (m : String) :
    m ∈ (addNodeList ns n a).map (fun p => p.1) ↔ m = n ∨ m ∈ ns.map (fun p => p.1) := by
  induction ns with
  | nil => simp [addNodeList]
  | cons p rest ih =>
    by_cases h : p.1 = n
    · subst h
      simp [addNodeList]
    · simp [addNodeList, h, ih]
      tauto

theorem nodup_keys_addNodeList (ns : List (String × AttrDict)) (n : String) (a : AttrDict)
    (h : (ns.map (fun p => p.1)).Nodup) :
    ((addNodeList ns n a).map (fun p => p.1)).Nodup := by
  induction ns with
  | nil => simp [addNodeList]
  | cons p rest ih =>
    by_cases hp : p.1 = n
    · simpa [addNodeList, hp] using h
    · simp only [addNodeList, if_neg hp, List.map_cons, List.nodup_cons] at h ⊢
      refine ⟨fun hmem => ?_, ih h.2⟩
      rcases (mem_keys_addNodeList rest n a p.1).mp hmem with h1 | h1
      · exact hp h1
      · exact h.1 h1

theorem findNode_addNodeList (ns : List (String × AttrDict)) (n : String) (a : AttrDict)
    (m : String) :
    findNode (addNodeList ns n a) m =
      if m = n then some (updatedWith (findNode ns n) a) else findNode ns m := by
  induction ns with
  | nil =>
    by_cases h : m = n
    · simp [addNodeList, findNode, updatedWith, h]
    · have h' : ¬ n = m := fun hc => h hc.symm
      simp [addNodeList, findNode, updatedWith, h, h']
  | cons p rest ih =>
    by_cases h : p.1 = n
    · by_cases hm : m = n
      · subst hm
        simp [addNodeList, findNode, h, updatedWith]
      · have hnm : ¬ n = m := fun hc => hm hc.symm
        have hpm : ¬ p.1 = m := by rw [h]; exact hnm
        simp [addNodeList, findNode, h, hm, hpm, hnm]
    · by_cases hpm : p.1 = m
      · have hmn : ¬ m = n := fun hc => h (hpm.trans hc)
        simp [addNodeList, findNode, h, hpm, hmn]
      · simp [addNodeList, findNode, h, hpm, ih]

theorem addEntities_ok_iff (es : List EntityR) (G : Graph) :
    (∃ G', addEntities G es = .ok G') ↔ ∀ e ∈ es, e.name.isSome := by
  induction es generalizing G with
  | nil => simp [addEntities]
  | cons e rest ih =>
    cases he : e.name with
    | none => simp [addEntities, he]
    | some n => simp [addEntities, he, ih]

theorem addEntities_edges (es : List EntityR) (G G' : Graph)
    (h : addEntities G es = .ok G') : G'.edges = G.edges := by
  induction es generalizing G with
  | nil =>
    simp only [addEntities] at h
    cases h
    rfl
  | cons e rest ih =>
    cases he : e.name with
    | none => simp [addEntities, he] at h
    | some n =>
      simp only [addEntities, he] at h
      exact (ih _ h).trans (add_node_edges ..)

theorem addEntities_mem_nodes (es : List EntityR) (G G' : Graph)
    (h : addEntities G es = .ok G') (m : String) :
    m ∈ nodeNames G' ↔ m ∈ nodeNames G ∨ ∃ e ∈ es, e.name = some m := by
  induction es generalizing G with
  | nil =>
    simp only [addEntities] at h
    cases h
    simp
  | cons e rest ih =>
    cases he : e.name with
    | none => simp [addEntities, he] at h
    | some n =>
      simp only [addEntities, he] at h
      rw [ih _ h]
      have : m ∈ nodeNames (add_node G n (entityAttrs e)) ↔ m = n ∨ m ∈ nodeNames G :=
        mem_keys_addNodeList G.nodes n (entityAttrs e) m
      rw [this]
      constructor
      · rintro ((rfl | hg) | ⟨e', he', hn⟩)
        · exact Or.inr ⟨e, by simp [he]⟩
        · exact Or.inl hg
        · exact Or.inr ⟨e', by simp [he', hn]⟩
      · rintro (hg | ⟨e', he', hn⟩)
        · exact Or.inl (Or.inr hg)
        · rcases List.mem_cons.mp he' with rfl | hmem
          · rw [he] at hn
            exact Or.inl (Or.inl (Option.some_inj.mp hn).symm)
          · exact Or.inr ⟨e', hmem, hn⟩

theorem addEntities_nodup (es : List EntityR) (G G' : Graph)
    (h : addEntities G es = .ok G') (hn : (nodeNames G).Nodup) :
    (nodeNames G').Nodup := by
  induction es generalizing G with
  | nil =>
    simp only [addEntities] at h
    cases h
    exact hn
  | cons e rest ih =>
    cases he : e.name with
    | none => simp [addEntities, he] at h
    | some n =>
      simp only [addEntities, he] at h
      exact ih _ h (nodup_keys_addNodeList G.nodes n (entityAttrs e) hn)

theorem dictUpdate_pair (k1 k2 x y x' y' : String) (h : ¬ k1 = k2) :
    dictUpdate [(k1, x), (k2, y)] [(k1, x'), (k2, y')] = [(k1, x'), (k2, y')] := by
  simp [dictUpdate, dictInsert, h]

theorem addEntities_findNode (es : List EntityR) (G G' : Graph)
    (hshape : ∀ m dct, findNode G.nodes m = some dct → pairShape "type" "description" dct)
    (h : addEntities G es = .ok G') (m : String) :
    findNode G'.nodes m =
      match lastNamed es m with
      | some e => some (entityAttrs e)
      | none => findNode G.nodes m := by
  induction es generalizing G with
  | nil =>
    simp only [addEntities] at h
    cases h
    simp [lastNamed]
  | cons e rest ih =>
    cases he : e.name with
    | none => simp [addEntities, he] at h
    | some n =>
      simp only [addEntities, he] at h
      have hshape2 : ∀ m' dct, findNode (add_node G n (entityAttrs e)).nodes m' = some dct →
          pairShape "type" "description" dct := by
        intro m' dct hf
        rw [show (add_node G n (entityAttrs e)).nodes = addNodeList G.nodes n (entityAttrs e)
              from rfl,
            findNode_addNodeList] at hf
        by_cases hm' : m' = n
        · rw [if_pos hm'] at hf
          obtain rfl : dct = updatedWith (findNode G.nodes n) (entityAttrs e) :=
            (Option.some_inj.mp hf).symm
          cases hold : findNode G.nodes n with
          | none =>
            exact ⟨e.type.getD "unknown", e.description.getD "", by
              simp [updatedWith, hold, entityAttrs]⟩
          | some d =>
            rcases hshape n d hold with ⟨x, y, rfl⟩
            exact ⟨e.type.getD "unknown", e.description.getD "", by
              simp [updatedWith, hold, entityAttrs,
                dictUpdate_pair "type" "description" x y (e.type.getD "unknown")
                  (e.description.getD "") (by decide)]⟩
        · rw [if_neg hm'] at hf
          exact hshape m' dct hf
      have hrec := ih _ hshape2 h
      rw [hrec]
      cases hl : lastNamed rest m with
      | some e' => simp [lastNamed, hl]
      | none =>
        simp only [lastNamed, hl]
        rw [show (add_node G n (entityAttrs e)).nodes = addNodeList G.nodes n (entityAttrs e)
              from rfl,
            findNode_addNodeList]
        by_cases hm : m = n
        · subst hm
          rw [if_pos rfl, he, if_pos rfl]
          cases hold : findNode G.nodes m with
          | none => simp [updatedWith, hold]
          | some d =>
            rcases hshape m d hold with ⟨x, y, rfl⟩
            simp [updatedWith, hold, entityAttrs,
              dictUpdate_pair "type" "description" x y (e.type.getD "unknown")
                (e.description.getD "") (by decide)]
        · have hne : ¬ e.name = some m := by
            rw [he]
            simp only [Option.some.injEq]
            exact fun hc => hm hc.symm
          rw [if_neg hm, if_neg hne]

/-! ### Lemmas about edges and the relationship loop -/

theorem ensureNode_of_mem (ns : List (String × AttrDict)) (n : String)
    (h : ns.any (fun p => p.1 = n) = true) : ensureNode ns n = ns := by
  simp [ensureNode, h]

theorem add_edge_nodes (G : Graph) (u v : String) (a : AttrDict)
    (hu : hasNode G u = true) (hv : hasNode G v = true) :
    (add_edge G u v a).nodes = G.nodes := by
  have h1 : ensureNode G.nodes u = G.nodes := ensureNode_of_mem _ _ hu
  have h2 : ensureNode (ensureNode G.nodes u) v = G.nodes := by
    rw [h1]; exact ensureNode_of_mem _ _ hv
  simp [add_edge, h2]

theorem updateEdgeList_ends (u v : String) (x : AttrDict) :
    ∀ es es', updateEdgeList es u v x = some es' →
      es'.map edgeEnds = es.map edgeEnds := by
  intro es
  induction es with
  | nil => intro es' h; simp [updateEdgeList] at h
  | cons t rest ih =>
    intro es' h
    by_cases hc : (t.1 = u ∧ t.2.1 = v) ∨ (t.1 = v ∧ t.2.1 = u)
    · rw [updateEdgeList, if_pos hc] at h
      cases h
      simp [edgeEnds]
    · rw [updateEdgeList, if_neg hc] at h
      rcases Option.map_eq_some'.mp h with ⟨es0, h0, rfl⟩
      simp [edgeEnds, ih es0 h0]

theorem add_edge_ends (G : Graph) (u v : String) (x : AttrDict) :
    (add_edge G u v x).edges.map edgeEnds = G.edges.map edgeEnds ∨
    (add_edge G u v x).edges.map edgeEnds = G.edges.map edgeEnds ++ [(u, v)] := by
  cases h : updateEdgeList G.edges u v x with
  | some es' => exact Or.inl (by simp [add_edge, h, updateEdgeList_ends u v x G.edges es' h])
  | none => exact Or.inr (by simp [add_edge, h, edgeEnds])

theorem addRels_nodes (rs : List RelR) :
    ∀ G : Graph, (addRels G rs).nodes = G.nodes := by
  induction rs with
  | nil => intro G; rfl
  | cons r rest ih =>
    intro G
    by_cases hg : r.source.getD "" ≠ "" ∧ r.target.getD "" ≠ "" ∧
        hasNode G (r.source.getD "") ∧ hasNode G (r.target.getD "")
    · rw [addRels, if_pos hg, ih]
      exact add_edge_nodes G _ _ _ hg.2.2.1 hg.2.2.2
    · rw [addRels, if_neg hg, ih]

theorem addRels_ends (rs : List RelR) :
    ∀ (G : Graph) (pr : String × String), pr ∈ (addRels G rs).edges.map edgeEnds →
      pr ∈ G.edges.map edgeEnds ∨
      (pr.1 ≠ "" ∧ pr.2 ≠ "" ∧ hasNode G pr.1 = true ∧ hasNode G pr.2 = true) := by
  induction rs with
  | nil => intro G pr h; exact Or.inl h
  | cons r rest ih =>
    intro G pr h
    by_cases hg : r.source.getD "" ≠ "" ∧ r.target.getD "" ≠ "" ∧
        hasNode G (r.source.getD "") ∧ hasNode G (r.target.getD "")
    · rw [addRels, if_pos hg] at h
      rcases ih _ pr h with hin | hcond
      · rcases add_edge_ends G (r.source.getD "") (r.target.getD "") (relAttrs r) with he | he
        · rw [he] at hin
          exact Or.inl hin
        · rw [he, List.mem_append] at hin
          rcases hin with hin | hin
          · exact Or.inl hin
          · simp only [List.mem_singleton] at hin
            subst hin
            exact Or.inr ⟨hg.1, hg.2.1, hg.2.2.1, hg.2.2.2⟩
      · have hn : (add_edge G (r.source.getD "") (r.target.getD "") (relAttrs r)).nodes
            = G.nodes := add_edge_nodes G _ _ _ hg.2.2.1 hg.2.2.2
        have hh : ∀ m, hasNode (add_edge G (r.source.getD "") (r.target.getD "") (relAttrs r)) m
            = hasNode G m := by
          intro m; unfold hasNode; rw [hn]
        exact Or.inr ⟨hcond.1, hcond.2.1, (hh pr.1) ▸ hcond.2.2.1, (hh pr.2) ▸ hcond.2.2.2⟩
    · rw [addRels, if_neg hg] at h
      exact ih _ pr h

/-! ### Overwrite semantics of edges between a fixed unordered pair -/

theorem pairMatch_def (u v a b : String) :
    pairMatch u v a b ↔ ((u = a ∧ v = b) ∨ (u = b ∧ v = a)) := Iff.rfl

theorem pairMatch_swap {w z a b : String} (h : pairMatch w z a b) : pairMatch z w a b := by
  unfold pairMatch at h ⊢; tauto

theorem pairMatch_iff_of_match {u v a b : String} (h : pairMatch u v a b) (w z : String) :
    pairMatch w z u v ↔ pairMatch w z a b := by
  rcases h with ⟨rfl, rfl⟩ | ⟨rfl, rfl⟩
  · exact Iff.rfl
  · unfold pairMatch; tauto

theorem pairMatch_of_both {w z u v a b : String}
    (h1 : pairMatch w z u v) (h2 : pairMatch w z a b) : pairMatch u v a b := by
  rcases h1 with ⟨rfl, rfl⟩ | ⟨rfl, rfl⟩
  · exact h2
  · exact pairMatch_swap h2

theorem updateEdgeList_eq_none (u v : String) (x : AttrDict) :
    ∀ es, updateEdgeList es u v x = none ↔ ∀ t ∈ es, ¬ pairMatch t.1 t.2.1 u v := by
  intro es
  induction es with
  | nil => simp [updateEdgeList]
  | cons t rest ih =>
    by_cases hc : (t.1 = u ∧ t.2.1 = v) ∨ (t.1 = v ∧ t.2.1 = u)
    · rw [updateEdgeList, if_pos hc]
      constructor
      · intro h; exact Option.noConfusion h
      · intro h
        exact absurd ((pairMatch_def t.1 t.2.1 u v).mpr hc) (h t (List.mem_cons_self t rest))
    · rw [updateEdgeList, if_neg hc]
      rw [Option.map_eq_none', ih]
      constructor
      · intro h t' ht'
        rcases List.mem_cons.mp ht' with rfl | hmem
        · exact fun hp => hc ((pairMatch_def t'.1 t'.2.1 u v).mp hp)
        · exact h t' hmem
      · intro h t' ht'
        exact h t' (List.mem_cons_of_mem _ ht')

theorem updateEdgeList_filter_eq (u v a b : String) (x : AttrDict)
    (hnm : ¬ pairMatch u v a b) :
    ∀ es es', updateEdgeList es u v x = some es' →
      es'.filter (fun t => decide (pairMatch t.1 t.2.1 a b)) =
      es.filter (fun t => decide (pairMatch t.1 t.2.1 a b)) := by
  intro es
  induction es with
  | nil => intro es' h; simp [updateEdgeList] at h
  | cons t rest ih =>
    intro es' h
    by_cases hc : (t.1 = u ∧ t.2.1 = v) ∨ (t.1 = v ∧ t.2.1 = u)
    · rw [updateEdgeList, if_pos hc] at h
      cases h
      have hpt : ¬ pairMatch t.1 t.2.1 a b := fun hp =>
        hnm (pairMatch_of_both ((pairMatch_def t.1 t.2.1 u v).mpr hc) hp)
      simp [List.filter_cons, hpt]
    · rw [updateEdgeList, if_neg hc] at h
      rcases Option.map_eq_some'.mp h with ⟨es0, h0, rfl⟩
      simp [List.filter_cons, ih es0 h0]

theorem add_edge_between_not_match (G : Graph) (u v a b : String) (x : AttrDict)
    (hnm : ¬ pairMatch u v a b) :
    edgesBetween (add_edge G u v x) a b = edgesBetween G a b := by
  unfold edgesBetween
  cases h : updateEdgeList G.edges u v x with
  | some es' =>
    simp only [add_edge, h]
    exact updateEdgeList_filter_eq u v a b x hnm G.edges es' h
  | none =>
    simp only [add_edge, h]
    rw [List.filter_append]
    simp [hnm]

theorem add_edge_between_empty (G : Graph) (u v a b : String) (x : AttrDict)
    (hm : pairMatch u v a b) (hemp : edgesBetween G a b = []) :
    edgesBetween (add_edge G u v x) a b = [(u, v, x)] := by
  have hall : ∀ t ∈ G.edges, ¬ pairMatch t.1 t.2.1 a b := by
    intro t ht hp
    have hmem : t ∈ edgesBetween G a b := by
      simp [edgesBetween, List.mem_filter, ht, hp]
    rw [hemp] at hmem
    exact absurd hmem (List.not_mem_nil t)
  have hnone : updateEdgeList G.edges u v x = none :=
    (updateEdgeList_eq_none u v x G.edges).mpr
      (fun t ht hp => hall t ht ((pairMatch_iff_of_match hm t.1 t.2.1).mp hp))
  unfold edgesBetween at hemp ⊢
  simp only [add_edge, hnone]
  rw [List.filter_append, hemp]
  simp [hm]

theorem updateEdgeList_single (u v a b : String) (x : AttrDict) (hm : pairMatch u v a b) :
    ∀ es t0, es.filter (fun t => decide (pairMatch t.1 t.2.1 a b)) = [t0] →
      ∃ es', updateEdgeList es u v x = some es' ∧
        es'.filter (fun t => decide (pairMatch t.1 t.2.1 a b)) =
          [(t0.1, t0.2.1, dictUpdate t0.2.2 x)] := by
  intro es
  induction es with
  | nil => intro t0 h; simp at h
  | cons t rest ih =>
    intro t0 h
    by_cases hp : pairMatch t.1 t.2.1 a b
    · simp only [List.filter_cons] at h
      rw [if_pos (show decide (pairMatch t.1 t.2.1 a b) = true from decide_eq_true hp)] at h
      simp only [List.cons.injEq] at h
      obtain ⟨rfl, hrest⟩ := h
      have hc : (t.1 = u ∧ t.2.1 = v) ∨ (t.1 = v ∧ t.2.1 = u) :=
        (pairMatch_def t.1 t.2.1 u v).mp ((pairMatch_iff_of_match hm t.1 t.2.1).mpr hp)
      refine ⟨(t.1, t.2.1, dictUpdate t.2.2 x) :: rest, ?_, ?_⟩
      · rw [updateEdgeList, if_pos hc]
      · simp [List.filter_cons, hp, hrest]
    · simp only [List.filter_cons] at h
      rw [if_neg (show ¬ decide (pairMatch t.1 t.2.1 a b) = true from by simp [hp])] at h
      rcases ih t0 h with ⟨es0, h1, h2⟩
      have hc : ¬ ((t.1 = u ∧ t.2.1 = v) ∨ (t.1 = v ∧ t.2.1 = u)) := fun hcc =>
        hp ((pairMatch_iff_of_match hm t.1 t.2.1).mp ((pairMatch_def t.1 t.2.1 u v).mpr hcc))
      refine ⟨t :: es0, ?_, ?_⟩
      · rw [updateEdgeList, if_neg hc, h1]
        rfl
      · simp [List.filter_cons, hp, h2]

theorem add_edge_between_single (G : Graph) (u v a b : String) (x : AttrDict)
    (hm : pairMatch u v a b) (t0 : String × String × AttrDict)
    (hone : edgesBetween G a b = [t0]) :
    edgesBetween (add_edge G u v x) a b = [(t0.1, t0.2.1, dictUpdate t0.2.2 x)] := by
  rcases updateEdgeList_single u v a b x hm G.edges t0 hone with ⟨es', h1, h2⟩
  unfold edgesBetween
  simp only [add_edge, h1]
  exact h2

theorem lastLink_spec (a b : String) :
    ∀ (rs : List RelR) (r' : RelR), lastLink rs a b = some r' →
      r' ∈ rs ∧ linksPair r' a b := by
  intro rs
  induction rs with
  | nil => intro r' h; simp [lastLink] at h
  | cons r rest ih =>
    intro r' h
    cases hl : lastLink rest a b with
    | some r'' =>
      rw [lastLink, hl] at h
      cases h
      rcases ih r' hl with ⟨hm, hp⟩
      exact ⟨List.mem_cons_of_mem _ hm, hp⟩
    | none =>
      rw [lastLink, hl] at h
      by_cases hlp : linksPair r a b
      · rw [if_pos hlp] at h
        cases h
        exact ⟨List.mem_cons_self _ _, hlp⟩
      · rw [if_neg hlp] at h
        exact absurd h (Option.noConfusion)

theorem lastLink_ne_none (a b : String) (r : RelR) (hl : linksPair r a b) :
    ∀ rs : List RelR, r ∈ rs → lastLink rs a b ≠ none := by
  intro rs
  induction rs with
  | nil => intro hr; cases hr
  | cons r0 rest ih =>
    intro hr
    rcases List.mem_cons.mp hr with rfl | hmem
    · cases hl' : lastLink rest a b with
      | some r'' => simp [lastLink, hl']
      | none => simp [lastLink, hl', hl]
    · cases hl' : lastLink rest a b with
      | some r'' => simp [lastLink, hl']
      | none => exact absurd hl' (ih hmem)

theorem addRels_between (a b : String) :
    ∀ (rs : List RelR) (G : Graph), ¬ a = "" → ¬ b = "" →
    hasNode G a = true → hasNode G b = true →
    (edgesBetween G a b = [] ∨
      ∃ w z w1 w2, edgesBetween G a b = [(w, z, [("relationship", w1), ("description", w2)])] ∧
        pairMatch w z a b) →
    (match lastLink rs a b with
     | none => edgesBetween (addRels G rs) a b = edgesBetween G a b
     | some r => ∃ w z, edgesBetween (addRels G rs) a b = [(w, z, relAttrs r)] ∧
         pairMatch w z a b) := by
  intro rs
  induction rs with
  | nil =>
    intro G _ _ _ _ _
    simp [lastLink, addRels]
  | cons r rest ih =>
    intro G ha hb hna hnb hinv
    simp only [addRels]
    by_cases hg : r.source.getD "" ≠ "" ∧ r.target.getD "" ≠ "" ∧
        hasNode G (r.source.getD "") ∧ hasNode G (r.target.getD "")
    · rw [if_pos hg]
      have hnodes : (add_edge G (r.source.getD "") (r.target.getD "") (relAttrs r)).nodes
          = G.nodes := add_edge_nodes G _ _ _ hg.2.2.1 hg.2.2.2
      have hna' : hasNode (add_edge G (r.source.getD "") (r.target.getD "") (relAttrs r)) a
          = true := by unfold hasNode; rw [hnodes]; exact hna
      have hnb' : hasNode (add_edge G (r.source.getD "") (r.target.getD "") (relAttrs r)) b
          = true := by unfold hasNode; rw [hnodes]; exact hnb
      by_cases hl : linksPair r a b
      · have hsingle : ∃ w z,
            edgesBetween (add_edge G (r.source.getD "") (r.target.getD "") (relAttrs r)) a b
              = [(w, z, relAttrs r)] ∧ pairMatch w z a b := by
          rcases hinv with hemp | ⟨w, z, w1, w2, hone, hwz⟩
          · exact ⟨r.source.getD "", r.target.getD "",
              add_edge_between_empty G _ _ a b (relAttrs r) hl hemp, hl⟩
          · refine ⟨w, z, ?_, hwz⟩
            have h2 := add_edge_between_single G (r.source.getD "") (r.target.getD "") a b
              (relAttrs r) hl (w, z, [("relationship", w1), ("description", w2)]) hone
            rw [h2]
            show [(w, z, dictUpdate [("relationship", w1), ("description", w2)] (relAttrs r))]
              = [(w, z, relAttrs r)]
            rw [show relAttrs r = [("relationship", r.relationship.getD "related_to"),
                  ("description", r.description.getD "")] from rfl,
                dictUpdate_pair "relationship" "description" w1 w2
                  (r.relationship.getD "related_to") (r.description.getD "") (by decide)]
        have hinv' : edgesBetween (add_edge G (r.source.getD "") (r.target.getD "")
              (relAttrs r)) a b = [] ∨
            ∃ w z w1 w2, edgesBetween (add_edge G (r.source.getD "") (r.target.getD "")
              (relAttrs r)) a b = [(w, z, [("relationship", w1), ("description", w2)])] ∧
              pairMatch w z a b := by
          rcases hsingle with ⟨w, z, hw, hz⟩
          exact Or.inr ⟨w, z, r.relationship.getD "related_to", r.description.getD "",
            by rw [hw]; rfl, hz⟩
        have hres := ih _ ha hb hna' hnb' hinv'
        cases hll : lastLink rest a b with
        | some r' =>
          simp only [lastLink, hll]
          simp only [hll] at hres
          exact hres
        | none =>
          simp only [lastLink, hll, if_pos hl]
          simp only [hll] at hres
          rcases hsingle with ⟨w, z, hw, hz⟩
          exact ⟨w, z, by rw [hres, hw], hz⟩
      · have hbet : edgesBetween (add_edge G (r.source.getD "") (r.target.getD "")
            (relAttrs r)) a b = edgesBetween G a b :=
          add_edge_between_not_match G _ _ a b (relAttrs r) hl
        have hinv' : edgesBetween (add_edge G (r.source.getD "") (r.target.getD "")
              (relAttrs r)) a b = [] ∨
            ∃ w z w1 w2, edgesBetween (add_edge G (r.source.getD "") (r.target.getD "")
              (relAttrs r)) a b = [(w, z, [("relationship", w1), ("description", w2)])] ∧
              pairMatch w z a b := by
          rcases hinv with hemp | ⟨w, z, w1, w2, hone, hwz⟩
          · exact Or.inl (hbet.trans hemp)
          · exact Or.inr ⟨w, z, w1, w2, hbet.trans hone, hwz⟩
        have hres := ih _ ha hb hna' hnb' hinv'
        cases hll : lastLink rest a b with
        | some r' =>
          simp only [lastLink, hll]
          simp only [hll] at hres
          exact hres
        | none =>
          simp only [lastLink, hll, if_neg hl]
          simp only [hll] at hres
          exact hres.trans hbet
    · rw [if_neg hg]
      have hnl : ¬ linksPair r a b := by
        intro hlp
        rcases hlp with ⟨h1, h2⟩ | ⟨h1, h2⟩
        · exact hg ⟨by rw [h1]; exact ha, by rw [h2]; exact hb,
            by rw [h1]; exact hna, by rw [h2]; exact hnb⟩
        · exact hg ⟨by rw [h1]; exact hb, by rw [h2]; exact ha,
            by rw [h1]; exact hnb, by rw [h2]; exact hna⟩
      have hres := ih G ha hb hna hnb hinv
      cases hll : lastLink rest a b with
      | some r' =>
        simp only [lastLink, hll]
        simp only [hll] at hres
        exact hres
      | none =>
        simp only [lastLink, hll, if_neg hnl]
        simp only [hll] at hres
        exact hres

/-! ### Degree sum and create_graph invariants -/

theorem sum_map_add_nat {α : Type} (l : List α) (f g : α → Nat) :
    (l.map (fun x => f x + g x)).sum = (l.map f).sum + (l.map g).sum := by
  induction l with
  | nil => simp
  | cons x rest ih => simp [ih]; omega

theorem sum_indicator_eq_zero (x : String) :
    ∀ N : List String, x ∉ N →
      (N.map (fun n => if x = n then 1 else 0)).sum = 0 := by
  intro N
  induction N with
  | nil => intro _; simp
  | cons y rest ih =>
    intro hx
    have hxy : ¬ x = y := fun hc => hx (hc ▸ List.mem_cons_self y rest)
    have hxr : x ∉ rest := fun hm => hx (List.mem_cons_of_mem _ hm)
    simp only [List.map_cons, List.sum_cons, if_neg hxy, ih hxr]

theorem sum_indicator_eq_one (x : String) :
    ∀ N : List String, N.Nodup → x ∈ N →
      (N.map (fun n => if x = n then 1 else 0)).sum = 1 := by
  intro N
  induction N with
  | nil => intro _ h; cases h
  | cons y rest ih =>
    intro hnd hmem
    rcases List.mem_cons.mp hmem with rfl | hmem'
    · have hx : x ∉ rest := (List.nodup_cons.mp hnd).1
      simp only [List.map_cons, List.sum_cons, sum_indicator_eq_zero x rest hx]
      simp
    · have hxy : ¬ x = y := by
        rintro rfl
        exact (List.nodup_cons.mp hnd).1 hmem'
      simp only [List.map_cons, List.sum_cons, if_neg hxy,
        ih (List.nodup_cons.mp hnd).2 hmem']

theorem sum_degrees_aux (N : List String) (hnd : N.Nodup) :
    ∀ es : List (String × String × AttrDict),
      (∀ t ∈ es, t.1 ∈ N ∧ t.2.1 ∈ N) →
      (N.map (fun n => (es.map (fun t =>
          (if t.1 = n then 1 else 0) + (if t.2.1 = n then 1 else 0))).sum)).sum
        = 2 * es.length := by
  intro es
  induction es with
  | nil => simp
  | cons t rest ih =>
    intro hmem
    have h1 : (N.map (fun n => ((t :: rest).map (fun t' =>
          (if t'.1 = n then 1 else 0) + (if t'.2.1 = n then 1 else 0))).sum)).sum
        = (N.map (fun n =>
            ((if t.1 = n then 1 else 0) + (if t.2.1 = n then 1 else 0)) +
            (rest.map (fun t' =>
              (if t'.1 = n then 1 else 0) + (if t'.2.1 = n then 1 else 0))).sum)).sum := by
      simp only [List.map_cons, List.sum_cons]
    rw [h1, sum_map_add_nat, sum_map_add_nat]
    have hm1 := (hmem t (List.mem_cons_self t rest)).1
    have hm2 := (hmem t (List.mem_cons_self t rest)).2
    rw [sum_indicator_eq_one t.1 N hnd hm1, sum_indicator_eq_one t.2.1 N hnd hm2,
      ih (fun t' ht' => hmem t' (List.mem_cons_of_mem _ ht'))]
    simp only [List.length_cons]
    omega

theorem degreeSum_eq (G : Graph) (hnd : (nodeNames G).Nodup)
    (hmem : ∀ t ∈ G.edges, t.1 ∈ nodeNames G ∧ t.2.1 ∈ nodeNames G) :
    degreeSum G = 2 * G.edges.length := by
  simp only [degreeSum, degree]
  exact sum_degrees_aux (nodeNames G) hnd G.edges hmem

theorem create_graph_parts (d : ExtractedData) (G : Graph)
    (h : create_graph d = .ok G) :
    ∃ G0, addEntities Graph.empty d.entities = .ok G0 ∧ G = addRels G0 d.relationships := by
  cases hE : addEntities Graph.empty d.entities with
  | error e => rw [create_graph, hE] at h; cases h
  | ok G0 =>
    rw [create_graph, hE] at h
    cases h
    exact ⟨G0, rfl, rfl⟩

theorem create_graph_mem_nodes (d : ExtractedData) (G : Graph)
    (h : create_graph d = .ok G) (m : String) :
    m ∈ nodeNames G ↔ ∃ e ∈ d.entities, e.name = some m := by
  rcases create_graph_parts d G h with ⟨G0, hE, rfl⟩
  have hnodes : (addRels G0 d.relationships).nodes = G0.nodes := addRels_nodes _ _
  have : nodeNames (addRels G0 d.relationships) = nodeNames G0 := by
    unfold nodeNames; rw [hnodes]
  rw [this, addEntities_mem_nodes _ _ _ hE m]
  simp [nodeNames, Graph.empty]

theorem create_graph_nodup (d : ExtractedData) (G : Graph)
    (h : create_graph d = .ok G) : (nodeNames G).Nodup := by
  rcases create_graph_parts d G h with ⟨G0, hE, rfl⟩
  have hnodes : (addRels G0 d.relationships).nodes = G0.nodes := addRels_nodes _ _
  have heq : nodeNames (addRels G0 d.relationships) = nodeNames G0 := by
    unfold nodeNames; rw [hnodes]
  rw [heq]
  exact addEntities_nodup _ _ _ hE (by simp [nodeNames, Graph.empty])

theorem create_graph_edge_ends (d : ExtractedData) (G : Graph)
    (h : create_graph d = .ok G) :
    ∀ t ∈ G.edges, ¬ t.1 = "" ∧ ¬ t.2.1 = "" ∧ t.1 ∈ nodeNames G ∧ t.2.1 ∈ nodeNames G := by
  rcases create_graph_parts d G h with ⟨G0, hE, rfl⟩
  intro t ht
  have hpr : (t.1, t.2.1) ∈ (addRels G0 d.relationships).edges.map edgeEnds :=
    List.mem_map_of_mem edgeEnds ht
  have hG0edges : G0.edges = [] := by
    rw [addEntities_edges _ _ _ hE]; rfl
  rcases addRels_ends d.relationships G0 (t.1, t.2.1) hpr with hin | hcond
  · rw [hG0edges] at hin
    simp at hin
  · have hnodes : (addRels G0 d.relationships).nodes = G0.nodes := addRels_nodes _ _
    have heq : nodeNames (addRels G0 d.relationships) = nodeNames G0 := by
      unfold nodeNames; rw [hnodes]
    refine ⟨hcond.1, hcond.2.1, ?_, ?_⟩
    · rw [heq]; exact (hasNode_iff G0 t.1).mp hcond.2.2.1
    · rw [heq]; exact (hasNode_iff G0 t.2.1).mp hcond.2.2.2

/-! ### Characterization of the greedy brace extraction -/

theorem splitFirst_eq_some (c : Char) :
    ∀ (cs pre post : List Char),
      splitFirst cs c = some (pre, post) ↔ (cs = pre ++ c :: post ∧ c ∉ pre) := by
  intro cs
  induction cs with
  | nil =>
    intro pre post
    constructor
    · intro h; simp [splitFirst] at h
    · rintro ⟨h, -⟩
      exact absurd h (by cases pre <;> simp)
  | cons x rest ih =>
    intro pre post
    by_cases hx : x = c
    · rw [splitFirst, if_pos hx]
      constructor
      · intro h
        simp only [Option.some.injEq, Prod.mk.injEq] at h
        obtain ⟨rfl, rfl⟩ := h
        exact ⟨by rw [hx]; rfl, by simp⟩
      · rintro ⟨heq, hnpre⟩
        cases pre with
        | nil =>
          simp only [List.nil_append] at heq
          injection heq with h1 h2
          rw [h2]
        | cons y pre' =>
          simp only [List.cons_append] at heq
          injection heq with h1 h2
          exfalso
          have hcy : c = y := (hx.symm.trans h1)
          rw [hcy] at hnpre
          exact hnpre (List.mem_cons_self y pre')
    · rw [splitFirst, if_neg hx, Option.map_eq_some']
      constructor
      · rintro ⟨⟨pre0, post0⟩, h0, heq⟩
        simp only [Prod.mk.injEq] at heq
        obtain ⟨h1, h2⟩ := heq
        rcases (ih pre0 post0).mp h0 with ⟨hcs, hnp⟩
        subst h1
        subst h2
        refine ⟨by rw [hcs]; rfl, ?_⟩
        intro hmem
        rcases List.mem_cons.mp hmem with hc | hc
        · exact hx hc.symm
        · exact hnp hc
      · rintro ⟨heq, hnpre⟩
        cases pre with
        | nil =>
          simp only [List.nil_append] at heq
          injection heq with h1 h2
          exact absurd h1 hx
        | cons y pre' =>
          simp only [List.cons_append] at heq
          injection heq with h1 h2
          subst h1
          have hnp' : c ∉ pre' := fun hc => hnpre (List.mem_cons_of_mem _ hc)
          exact ⟨(pre', post), (ih pre' post).mpr ⟨h2, hnp'⟩, rfl⟩

theorem splitLast_eq_some (c : Char) (cs pre post : List Char) :
    splitLast cs c = some (pre, post) ↔ (cs = pre ++ c :: post ∧ c ∉ post) := by
  unfold splitLast
  rw [Option.map_eq_some']
  constructor
  · rintro ⟨⟨p1, p2⟩, h0, heq⟩
    simp only [Prod.mk.injEq] at heq
    obtain ⟨h1, h2⟩ := heq
    rcases (splitFirst_eq_some c cs.reverse p1 p2).mp h0 with ⟨hcs, hnp⟩
    subst h1
    subst h2
    constructor
    · have hrev := congrArg List.reverse hcs
      simpa [List.reverse_append] using hrev
    · simpa using hnp
  · rintro ⟨hcs, hnpost⟩
    refine ⟨(post.reverse, pre.reverse), ?_, by simp⟩
    rw [splitFirst_eq_some]
    constructor
    · rw [hcs]
      simp [List.reverse_append]
    · simpa using hnpost

theorem jsonMatch_eq_some (s : String) (sub : String) :
    jsonMatch s = some sub ↔
      ∃ pre mid post : List Char,
        s.data = pre ++ '\x7b' :: (mid ++ '\x7d' :: post) ∧
        '\x7b' ∉ pre ∧ '\x7d' ∉ post ∧
        sub = String.mk ('\x7b' :: (mid ++ ['\x7d'])) := by
  cases h1 : splitFirst s.data '\x7b' with
  | none =>
    have hjm : jsonMatch s = none := by unfold jsonMatch; rw [h1]
    rw [hjm]
    constructor
    · intro h; exact absurd h (Option.noConfusion)
    · rintro ⟨pre, mid, post, hcs, hpre, _, rfl⟩
      have hA : splitFirst s.data '\x7b' = some (pre, mid ++ '\x7d' :: post) :=
        (splitFirst_eq_some '\x7b' s.data pre (mid ++ '\x7d' :: post)).mpr ⟨hcs, hpre⟩
      rw [h1] at hA
      exact absurd hA (Option.noConfusion)
  | some p =>
    obtain ⟨pre0, rest0⟩ := p
    have hjm1 : jsonMatch s = braceSub rest0 := by unfold jsonMatch; rw [h1]
    cases h2 : splitLast rest0 '\x7d' with
    | none =>
      have hjm : jsonMatch s = none := by rw [hjm1]; unfold braceSub; rw [h2]
      rw [hjm]
      constructor
      · intro h; exact absurd h (Option.noConfusion)
      · rintro ⟨pre, mid, post, hcs, hpre, hpost, rfl⟩
        have hA : splitFirst s.data '\x7b' = some (pre, mid ++ '\x7d' :: post) :=
          (splitFirst_eq_some '\x7b' s.data pre (mid ++ '\x7d' :: post)).mpr ⟨hcs, hpre⟩
        rw [h1] at hA
        simp only [Option.some.injEq, Prod.mk.injEq] at hA
        obtain ⟨-, hrest⟩ := hA
        have hB : splitLast rest0 '\x7d' = some (mid, post) :=
          (splitLast_eq_some '\x7d' rest0 mid post).mpr ⟨by rw [hrest], hpost⟩
        rw [h2] at hB
        exact absurd hB (Option.noConfusion)
    | some q =>
      obtain ⟨mid0, post0⟩ := q
      have hjm : jsonMatch s = some (String.mk ('\x7b' :: (mid0 ++ ['\x7d']))) := by
        rw [hjm1]; unfold braceSub; rw [h2]
      rw [hjm]
      rcases (splitFirst_eq_some '\x7b' s.data pre0 rest0).mp h1 with ⟨hcs0, hpre0⟩
      rcases (splitLast_eq_some '\x7d' rest0 mid0 post0).mp h2 with ⟨hrest0, hpost0⟩
      constructor
      · intro h
        simp only [Option.some.injEq] at h
        exact ⟨pre0, mid0, post0, by rw [hcs0, hrest0], hpre0, hpost0, h.symm⟩
      · rintro ⟨pre, mid, post, hcs, hpre, hpost, rfl⟩
        have hA : splitFirst s.data '\x7b' = some (pre, mid ++ '\x7d' :: post) :=
          (splitFirst_eq_some '\x7b' s.data pre (mid ++ '\x7d' :: post)).mpr ⟨hcs, hpre⟩
        rw [h1] at hA
        simp only [Option.some.injEq, Prod.mk.injEq] at hA
        obtain ⟨-, hrest⟩ := hA
        have hB : splitLast rest0 '\x7d' = some (mid, post) :=
          (splitLast_eq_some '\x7d' rest0 mid post).mpr ⟨by rw [hrest], hpost⟩
        rw [h2] at hB
        simp only [Option.some.injEq, Prod.mk.injEq] at hB
        obtain ⟨rfl, rfl⟩ := hB
        rfl

theorem jsonMatch_eq_none (s : String) :
    jsonMatch s = none ↔
      ¬ ∃ pre mid post : List Char,
        s.data = pre ++ '\x7b' :: (mid ++ '\x7d' :: post) ∧
        '\x7b' ∉ pre ∧ '\x7d' ∉ post := by
  constructor
  · rintro h ⟨pre, mid, post, hcs, hpre, hpost⟩
    have : jsonMatch s = some (String.mk ('\x7b' :: (mid ++ ['\x7d']))) :=
      (jsonMatch_eq_some s _).mpr ⟨pre, mid, post, hcs, hpre, hpost, rfl⟩
    rw [h] at this
    exact absurd this (Option.noConfusion)
  · intro h
    cases hj : jsonMatch s with
    | none => rfl
    | some sub =>
      rcases (jsonMatch_eq_some s sub).mp hj with ⟨pre, mid, post, hcs, hpre, hpost, -⟩
      exact absurd ⟨pre, mid, post, hcs, hpre, hpost⟩ h

/-! ### Claim theorems -/

/-- C1: an edge is present in the graph returned by `create_graph` only when
its two endpoints are non-empty strings that are both names of nodes created
from the entity records; relationships failing this check are dropped
silently (the relationship loop never raises, so assembly succeeds whenever
every entity record carries a name). -/
theorem c1_edges_subset (d : ExtractedData) :
    (∀ G, create_graph d = .ok G →
      ∀ t ∈ G.edges, ¬ t.1 = "" ∧ ¬ t.2.1 = "" ∧
        (∃ e ∈ d.entities, e.name = some t.1) ∧
        (∃ e ∈ d.entities, e.name = some t.2.1)) ∧
    ((∀ e ∈ d.entities, e.name.isSome) → ∃ G, create_graph d = .ok G) := by
  constructor
  · intro G h t ht
    rcases create_graph_edge_ends d G h t ht with ⟨h1, h2, h3, h4⟩
    exact ⟨h1, h2, (create_graph_mem_nodes d G h t.1).mp h3,
      (create_graph_mem_nodes d G h t.2.1).mp h4⟩
  · intro hall
    rcases (addEntities_ok_iff d.entities Graph.empty).mpr hall with ⟨G0, hE⟩
    exact ⟨addRels G0 d.relationships, by simp [create_graph, hE]⟩

theorem c1_witness :
    (∀ t ∈ (Graph.mk [("A", [("type", "unknown"), ("description", "")])] []).edges,
      ¬ t.1 = "" ∧ ¬ t.2.1 = "" ∧
      (∃ e ∈ [EntityR.mk (some "A") none none], e.name = some t.1) ∧
      (∃ e ∈ [EntityR.mk (some "A") none none], e.name = some t.2.1)) ∧
    (∃ G, create_graph ⟨[⟨some "A", none, none⟩],
      [⟨some "A", some "B", none, none⟩, ⟨some "", some "A", none, none⟩]⟩ = .ok G) :=
  ⟨(c1_edges_subset ⟨[⟨some "A", none, none⟩], []⟩).1
      (Graph.mk [("A", [("type", "unknown"), ("description", "")])] []) rfl,
    (c1_edges_subset ⟨[⟨some "A", none, none⟩],
      [⟨some "A", some "B", none, none⟩, ⟨some "", some "A", none, none⟩]⟩).2 (by decide)⟩

/-- C10: the node set of the assembled graph is exactly the set of `name`
values of the entity records; the relationship loop neither adds nor removes
nodes. -/
theorem c10_node_set (d : ExtractedData) (G : Graph) (h : create_graph d = .ok G)
    (m : String) :
    m ∈ nodeNames G ↔ ∃ e ∈ d.entities, e.name = some m :=
  create_graph_mem_nodes d G h m

theorem c10_witness :
    "A" ∈ nodeNames (Graph.mk [("A", [("type", "unknown"), ("description", "")])] []) :=
  (c10_node_set ⟨[⟨some "A", none, none⟩], []⟩
      (Graph.mk [("A", [("type", "unknown"), ("description", "")])] []) rfl "A").mpr
    ⟨⟨some "A", none, none⟩, by simp, rfl⟩

/-- C5: each node stores the `type` (default `"unknown"`) and `description`
(default `""`) of the last entity record bearing its name; duplicate names
collapse to a single node (the node-name list has no duplicates). -/
theorem c5_node_attrs (d : ExtractedData) (G : Graph) (h : create_graph d = .ok G) :
    (∀ n e, lastNamed d.entities n = some e →
      findNode G.nodes n =
        some [("type", e.type.getD "unknown"), ("description", e.description.getD "")]) ∧
    (nodeNames G).Nodup := by
  refine ⟨?_, create_graph_nodup d G h⟩
  intro n e hl
  rcases create_graph_parts d G h with ⟨G0, hE, rfl⟩
  have hshape : ∀ m dct, findNode Graph.empty.nodes m = some dct →
      pairShape "type" "description" dct := by
    intro m dct hf
    simp [Graph.empty, findNode] at hf
  have hfind := addEntities_findNode d.entities Graph.empty G0 hshape hE n
  rw [hl] at hfind
  have hnodes : (addRels G0 d.relationships).nodes = G0.nodes := addRels_nodes _ _
  rw [hnodes, hfind]
  rfl

theorem c5_witness :
    findNode (Graph.mk [("A", [("type", "t2"), ("description", "")])] []).nodes "A" =
      some [("type", "t2"), ("description", "")] :=
  (c5_node_attrs ⟨[⟨some "A", some "t1", some "d1"⟩, ⟨some "A", some "t2", none⟩], []⟩
      (Graph.mk [("A", [("type", "t2"), ("description", "")])] []) rfl).1
    "A" ⟨some "A", some "t2", none⟩ rfl

/-- C7 counterexample: an entity record with no `name` key makes
`create_graph` raise a `KeyError` (the record is not inserted under the
empty-string key and an error is raised), contradicting the claim that no
validation error is raised for any entity record. -/
theorem c7_counterexample :
    create_graph ⟨[⟨none, none, none⟩], []⟩ = Except.error "KeyError: name" := rfl

/-- C7 amended: when every entity record carries a `name` key, `create_graph`
succeeds with no validation of the name values, and an entity whose name is
the empty string is inserted as a node keyed by the empty string; an entity
record with the `name` key absent instead raises a `KeyError`. -/
theorem c7_amended_theorem (d : ExtractedData)
    (hall : ∀ e ∈ d.entities, e.name.isSome) :
    ∃ G, create_graph d = .ok G ∧
      (∀ e ∈ d.entities, e.name = some "" → "" ∈ nodeNames G) := by
  rcases (addEntities_ok_iff d.entities Graph.empty).mpr hall with ⟨G0, hE⟩
  have hcg : create_graph d = .ok (addRels G0 d.relationships) := by
    simp [create_graph, hE]
  refine ⟨_, hcg, ?_⟩
  intro e he hname
  rw [create_graph_mem_nodes d _ hcg ""]
  exact ⟨e, he, hname⟩

theorem c7_witness :
    ∃ G, create_graph ⟨[⟨some "", none, none⟩], []⟩ = .ok G ∧
      (∀ e ∈ [EntityR.mk (some "") none none], e.name = some "" → "" ∈ nodeNames G) :=
  c7_amended_theorem ⟨[⟨some "", none, none⟩], []⟩ (by decide)

/-- C6: the graph is undirected with edges keyed by the unordered endpoint
pair and admits no multi-edges: for two distinct entity names `A`, `B`, all
relationship records linking `A` and `B` (in either direction) collapse to
exactly one edge, whose attributes are those of the last such record
(defaults `"related_to"` and `""`). -/
theorem c6_edge_overwrite (d : ExtractedData) (G : Graph) (A B : String)
    (h : create_graph d = .ok G) (_hAB : ¬ A = B) (hA : ¬ A = "") (hB : ¬ B = "")
    (hAmem : ∃ e ∈ d.entities, e.name = some A)
    (hBmem : ∃ e ∈ d.entities, e.name = some B)
    (r : RelR) (hlast : lastLink d.relationships A B = some r) :
    (edgesBetween G A B).length = 1 ∧
    ∃ w z, edgesBetween G A B = [(w, z, relAttrs r)] ∧ pairMatch w z A B := by
  rcases create_graph_parts d G h with ⟨G0, hE, rfl⟩
  have hnA : hasNode G0 A = true :=
    (hasNode_iff G0 A).mpr ((addEntities_mem_nodes _ _ _ hE A).mpr (Or.inr hAmem))
  have hnB : hasNode G0 B = true :=
    (hasNode_iff G0 B).mpr ((addEntities_mem_nodes _ _ _ hE B).mpr (Or.inr hBmem))
  have hG0edges : G0.edges = [] := by rw [addEntities_edges _ _ _ hE]; rfl
  have hemp : edgesBetween G0 A B = [] := by simp [edgesBetween, hG0edges]
  have hres := addRels_between A B d.relationships G0 hA hB hnA hnB (Or.inl hemp)
  simp only [hlast] at hres
  rcases hres with ⟨w, z, hw, hz⟩
  exact ⟨by rw [hw]; rfl, w, z, hw, hz⟩

theorem c6_witness :
    (edgesBetween (Graph.mk
        [("A", [("type", "unknown"), ("description", "")]),
         ("B", [("type", "unknown"), ("description", "")])]
        [("A", "B", [("relationship", "likes"), ("description", "x")])]) "A" "B").length = 1 ∧
    ∃ w z, edgesBetween (Graph.mk
        [("A", [("type", "unknown"), ("description", "")]),
         ("B", [("type", "unknown"), ("description", "")])]
        [("A", "B", [("relationship", "likes"), ("description", "x")])]) "A" "B"
      = [(w, z, relAttrs ⟨some "B", some "A", some "likes", some "x"⟩)] ∧
      pairMatch w z "A" "B" :=
  c6_edge_overwrite
    ⟨[⟨some "A", none, none⟩, ⟨some "B", none, none⟩],
     [⟨some "A", some "B", some "knows", none⟩, ⟨some "B", some "A", some "likes", some "x"⟩]⟩
    (Graph.mk
      [("A", [("type", "unknown"), ("description", "")]),
       ("B", [("type", "unknown"), ("description", "")])]
      [("A", "B", [("relationship", "likes"), ("description", "x")])])
    "A" "B" rfl (by decide) (by decide) (by decide) (by decide) (by decide)
    ⟨some "B", some "A", some "likes", some "x"⟩ (by decide)

/-- C9: a relationship whose source equals its target and names an existing
node passes the endpoint check and yields a self-loop edge at that node; the
loop's attributes are those of the last record linking the node to itself
(so, when the record is unique, the record's own attributes). -/
theorem c9_self_loop (d : ExtractedData) (G : Graph) (n : String) (r : RelR)
    (h : create_graph d = .ok G) (hr : r ∈ d.relationships)
    (hs : r.source.getD "" = n) (ht : r.target.getD "" = n) (hn : ¬ n = "")
    (hmem : ∃ e ∈ d.entities, e.name = some n) :
    ∃ r', lastLink d.relationships n n = some r' ∧ linksPair r' n n ∧
      edgesBetween G n n = [(n, n, relAttrs r')] := by
  have hlp : linksPair r n n := Or.inl ⟨hs, ht⟩
  have hne := lastLink_ne_none n n r hlp d.relationships hr
  cases hll : lastLink d.relationships n n with
  | none => exact absurd hll hne
  | some r' =>
    have hspec := lastLink_spec n n d.relationships r' hll
    rcases create_graph_parts d G h with ⟨G0, hE, rfl⟩
    have hnN : hasNode G0 n = true :=
      (hasNode_iff G0 n).mpr ((addEntities_mem_nodes _ _ _ hE n).mpr (Or.inr hmem))
    have hG0edges : G0.edges = [] := by rw [addEntities_edges _ _ _ hE]; rfl
    have hemp : edgesBetween G0 n n = [] := by simp [edgesBetween, hG0edges]
    have hres := addRels_between n n d.relationships G0 hn hn hnN hnN (Or.inl hemp)
    simp only [hll] at hres
    rcases hres with ⟨w, z, hw, hz⟩
    have hwz : w = n ∧ z = n := by
      rcases hz with ⟨h1, h2⟩ | ⟨h1, h2⟩ <;> exact ⟨h1, h2⟩
    rw [hwz.1, hwz.2] at hw
    exact ⟨r', rfl, hspec.2, hw⟩

theorem c9_witness :
    ∃ r', lastLink [(⟨some "A", some "A", some "self", none⟩ : RelR)] "A" "A" = some r' ∧
      linksPair r' "A" "A" ∧
      edgesBetween (Graph.mk [("A", [("type", "unknown"), ("description", "")])]
          [("A", "A", [("relationship", "self"), ("description", "")])]) "A" "A"
        = [("A", "A", relAttrs r')] :=
  c9_self_loop ⟨[⟨some "A", none, none⟩], [⟨some "A", some "A", some "self", none⟩]⟩
    (Graph.mk [("A", [("type", "unknown"), ("description", "")])]
      [("A", "A", [("relationship", "self"), ("description", "")])])
    "A" ⟨some "A", some "A", some "self", none⟩
    rfl (by decide) (by decide) (by decide) (by decide) (by decide)

/-- C8: for an assembled graph with `n` nodes and `e` edges, the displayed
density (`nx.density`) equals `e / (n (n-1) / 2)` whenever `n ≥ 2`, and the
displayed average degree (sum of all node degrees over `n`) equals `2 e / n`
whenever `n ≥ 1` (numerics modelled exactly in `ℚ`). -/
theorem c8_stats (d : ExtractedData) (G : Graph) (h : create_graph d = .ok G) :
    (2 ≤ (nodeNames G).length →
      nx_density G = (G.edges.length : ℚ) /
        (((nodeNames G).length : ℚ) * (((nodeNames G).length : ℚ) - 1) / 2)) ∧
    (1 ≤ (nodeNames G).length →
      avg_degree G = 2 * (G.edges.length : ℚ) / ((nodeNames G).length : ℚ)) := by
  have hnd := create_graph_nodup d G h
  have hends := create_graph_edge_ends d G h
  have hdeg : degreeSum G = 2 * G.edges.length :=
    degreeSum_eq G hnd (fun t ht => ⟨(hends t ht).2.2.1, (hends t ht).2.2.2⟩)
  constructor
  · intro hn2
    simp only [nx_density]
    by_cases hm : G.edges.length = 0
    · rw [if_pos (Or.inl hm), hm]
      simp
    · have hcond : ¬ (G.edges.length = 0 ∨ (nodeNames G).length ≤ 1) := by
        rintro (hc | hc)
        · exact hm hc
        · omega
      rw [if_neg hcond]
      have hn0 : ((nodeNames G).length : ℚ) ≠ 0 := by
        have : (2 : ℚ) ≤ ((nodeNames G).length : ℚ) := by exact_mod_cast hn2
        intro hc
        rw [hc] at this
        norm_num at this
      have hn1 : ((nodeNames G).length : ℚ) - 1 ≠ 0 := by
        have : (2 : ℚ) ≤ ((nodeNames G).length : ℚ) := by exact_mod_cast hn2
        intro hc
        have : ((nodeNames G).length : ℚ) = 1 := by linarith
        rw [this] at *
        linarith
      field_simp
      ring
  · intro hn1
    simp only [avg_degree]
    rw [hdeg]
    push_cast
    ring

theorem c8_witness :
    nx_density (Graph.mk
        [("A", [("type", "unknown"), ("description", "")]),
         ("B", [("type", "unknown"), ("description", "")])]
        [("A", "B", [("relationship", "likes"), ("description", "x")])])
      = ((Graph.mk
          [("A", [("type", "unknown"), ("description", "")]),
           ("B", [("type", "unknown"), ("description", "")])]
          [("A", "B", [("relationship", "likes"), ("description", "x")])]).edges.length : ℚ) /
        (((nodeNames (Graph.mk
            [("A", [("type", "unknown"), ("description", "")]),
             ("B", [("type", "unknown"), ("description", "")])]
            [("A", "B", [("relationship", "likes"), ("description", "x")])])).length : ℚ) *
          (((nodeNames (Graph.mk
            [("A", [("type", "unknown"), ("description", "")]),
             ("B", [("type", "unknown"), ("description", "")])]
            [("A", "B", [("relationship", "likes"), ("description", "x")])])).length : ℚ) - 1) / 2) :=
  (c8_stats
    ⟨[⟨some "A", none, none⟩, ⟨some "B", none, none⟩],
     [⟨some "A", some "B", some "knows", none⟩, ⟨some "B", some "A", some "likes", some "x"⟩]⟩
    (Graph.mk
      [("A", [("type", "unknown"), ("description", "")]),
       ("B", [("type", "unknown"), ("description", "")])]
      [("A", "B", [("relationship", "likes"), ("description", "x")])]) rfl).1 (by decide)

/-- C2: the response parser strips the raw text, then extracts the greedy
substring from the first opening brace to the last closing brace (matching
across newlines, not balanced-brace aware) and parses it as JSON; with no
such substring it parses the whole stripped text; a JSON object wrapped in
commentary is recovered rather than reported as a parse error. -/
theorem c2_parse_pipeline :
    (∀ s sub, jsonMatch s = some sub ↔
      ∃ pre mid post : List Char,
        s.data = pre ++ '\x7b' :: (mid ++ '\x7d' :: post) ∧
        '\x7b' ∉ pre ∧ '\x7d' ∉ post ∧
        sub = String.mk ('\x7b' :: (mid ++ ['\x7d']))) ∧
    (∀ raw sub, jsonMatch (pyStrip raw) = some sub → parseAttempt raw = json_loads sub) ∧
    (∀ raw, jsonMatch (pyStrip raw) = none → parseAttempt raw = json_loads (pyStrip raw)) ∧
    extract_entities_relationships
        (.ok "Sure! Here is the result: \x7b\"entities\":[],\"relationships\":[]\x7d Hope that helps!")
      = (emptyStruct, none) := by
  refine ⟨jsonMatch_eq_some, ?_, ?_, rfl⟩
  · intro raw sub h
    simp only [parseAttempt]
    rw [h]
  · intro raw h
    simp only [parseAttempt]
    rw [h]

theorem c2_witness :
    parseAttempt "x \x7by\x7d z" = json_loads "\x7by\x7d" ∧
    extract_entities_relationships
        (.ok "Sure! Here is the result: \x7b\"entities\":[],\"relationships\":[]\x7d Hope that helps!")
      = (emptyStruct, none) :=
  ⟨c2_parse_pipeline.2.1 "x \x7by\x7d z" "\x7by\x7d" rfl, c2_parse_pipeline.2.2.2⟩

/-- C3: a raising generation call yields the empty structure with an
API-error message; a failing JSON parse yields the empty structure with a
parse-error message; whenever a message is reported the result is the empty
structure (no exception propagates — the function is total), and the two
message kinds are distinguishable. -/
theorem c3_error_handling :
    (∀ e, extract_entities_relationships (.error e) = (emptyStruct, some (.apiErr e))) ∧
    (∀ raw e, parseAttempt raw = .error e →
      extract_entities_relationships (.ok raw) = (emptyStruct, some (.parseErr e))) ∧
    (∀ resp k, (extract_entities_relationships resp).2 = some k →
      (extract_entities_relationships resp).1 = emptyStruct) ∧
    (∀ e1 e2, ErrKind.parseErr e1 ≠ ErrKind.apiErr e2) := by
  refine ⟨fun e => rfl, ?_, ?_, ?_⟩
  · intro raw e h
    simp only [extract_entities_relationships]
    rw [h]
  · intro resp k h
    cases resp with
    | error e => rfl
    | ok raw =>
      simp only [extract_entities_relationships] at h ⊢
      cases hp : parseAttempt raw with
      | ok j => rw [hp] at h; simp at h
      | error e => rfl
  · intro e1 e2 h
    exact ErrKind.noConfusion h

theorem c3_witness :
    extract_entities_relationships (.error "boom") = (emptyStruct, some (.apiErr "boom")) ∧
    extract_entities_relationships (.ok "nope")
      = (emptyStruct, some (.parseErr "Expecting value")) :=
  ⟨c3_error_handling.1 "boom", c3_error_handling.2.1 "nope" "Expecting value" rfl⟩

/-- C4 counterexample: the response `"\x7b\x7d"` parses successfully, and
the function returns the parsed object `\x7b\x7d` verbatim — a record with
neither an `entities` nor a `relationships` field — refuting the claim that
both fields are always present as arrays. -/
theorem c4_counterexample :
    extract_entities_relationships (.ok "\x7b\x7d") = (Json.obj [], none) ∧
    jsonField (Json.obj []) "entities" = none ∧
    jsonField (Json.obj []) "relationships" = none :=
  ⟨rfl, rfl, rfl⟩

/-- C4 amended: on any reported failure the result is the fallback record,
whose `entities` and `relationships` fields are both present as empty
arrays; on success the parsed JSON value is returned verbatim, with no
guarantee that those fields are present or are arrays. -/
theorem c4_amended_theorem (resp : Except String String) :
    ((extract_entities_relationships resp).2.isSome = true →
      (extract_entities_relationships resp).1 = emptyStruct) ∧
    ((extract_entities_relationships resp).2 = none →
      ∃ raw, resp = .ok raw ∧
        parseAttempt raw = .ok (extract_entities_relationships resp).1) ∧
    jsonField emptyStruct "entities" = some (.arr []) ∧
    jsonField emptyStruct "relationships" = some (.arr []) := by
  refine ⟨?_, ?_, rfl, rfl⟩
  · cases resp with
    | error e => intro _; rfl
    | ok raw =>
      simp only [extract_entities_relationships]
      cases hp : parseAttempt raw with
      | ok j => intro h; simp at h
      | error e => intro _; rfl
  · cases resp with
    | error e => intro h; simp [extract_entities_relationships] at h
    | ok raw =>
      simp only [extract_entities_relationships]
      cases hp : parseAttempt raw with
      | ok j => intro _; exact ⟨raw, rfl, hp⟩
      | error e => intro h; simp at h

theorem c4_witness :
    (extract_entities_relationships (.ok "junk")).1 = emptyStruct :=
  (c4_amended_theorem (.ok "junk")).1 rfl
